import Mathlib

/-!
Verification of the influxdb-client-rust client configuration and
request-construction layer, together with the HealthCheck JSON data
contract.

The definitions below are a shallow embedding of `src/client/mod.rs` and
`src/generated/models/health_check.rs`.  External collaborators that are
not part of the repository (the `url` crate parser, the `reqwest`
request builder, the `serde` serialization framework, and the generated
`WritePrecision` enum) are modelled from the specification, as noted on
each such definition.
-/

namespace Influx

/-- Modelled from the spec: the generated `WritePrecision` enumeration
(the generated model file is not in the excerpt); the spec lists the
fixed set nanoseconds, microseconds, milliseconds, seconds, and
`Client::build_client` uses the variant `WritePrecision::Ns`. -/
inductive WritePrecision where
  | ms
  | s
  | us
  | ns
deriving DecidableEq, Repr

/-- A parsed absolute URL, the result of a successful parse: the scheme
and the remainder after the `://` separator. -/
structure Url where
  scheme : String
  rest : String
deriving DecidableEq, Repr

/-- Split a character list at the first occurrence of the scheme
separator `://`, returning the part before and the part after. -/
def splitScheme : List Char → Option (List Char × List Char)
  | [] => none
  | ':' :: '/' :: '/' :: rest => some ([], rest)
  | c :: rest => (splitScheme rest).map (fun p => (c :: p.1, p.2))

/-- Modelled from the spec: the external `url` crate `Url::parse`, which
the spec describes as accepting exactly the absolute URL strings (scheme
plus host required, separated by `://`) and rejecting everything else,
e.g. `"xyz"` fails with a relative-URL-without-a-base error. -/
def Url.parse (input : String) : Option Url :=
  match splitScheme input.data with
  | some (scheme, rest) =>
      if scheme ≠ [] ∧ rest ≠ [] then
        some ⟨String.mk scheme, String.mk rest⟩
      else none
  | none => none

/-- Embedding of `struct Auth`: the optional pre-formatted value of the
Authorization header. -/
structure Auth where
  authorization_header : Option String
deriving DecidableEq, Repr

/-- The fixed product-identifying User-Agent string built by
`build_http_client` from the crate name and `CARGO_PKG_VERSION` (the
package version recorded in the test expectations). -/
def APP_USER_AGENT : String := "influxdb-client-rust/" ++ "1.0.0-alpha"

/-- Modelled from the spec: the external `reqwest` HTTP engine handle,
reduced to the one piece of configuration the client gives it, the fixed
User-Agent string sent on every request. -/
structure HttpClient where
  user_agent : String
deriving DecidableEq, Repr

/-- Embedding of `Client::build_http_client`. -/
def build_http_client : HttpClient :=
  { user_agent := APP_USER_AGENT }

/-- Embedding of `struct Client`. -/
structure Client where
  url : Url
  auth : Auth
  org : Option String
  bucket : Option String
  precision : Option WritePrecision
  http_client : HttpClient
deriving DecidableEq, Repr

/-- An HTTP method, passed through `build_request` without inspection. -/
inductive Method where
  | get
  | post
  | put
  | delete
  | patch
  | head
deriving DecidableEq, Repr

/-- Modelled from the spec: the external `reqwest::RequestBuilder`
request descriptor, reduced to the parts the client touches: method,
target URL, accumulated headers, an optional basic-auth credential pair,
and an optional body. -/
structure Request where
  method : Method
  url : Url
  headers : List (String × String)
  basic_auth : Option (String × Option String)
  body : Option String
deriving DecidableEq, Repr

/-- Modelled from the spec: `reqwest` `HttpClient::request` starts an
empty request carrying the default headers of the engine, here the
configured User-Agent, with no body and no credentials. -/
def HttpClient.request (hc : HttpClient) (method : Method) (url : Url) : Request :=
  { method := method
  , url := url
  , headers := [("User-Agent", hc.user_agent)]
  , basic_auth := none
  , body := none }

/-- Modelled from the spec: `reqwest` `RequestBuilder::header`, which
appends one header. -/
def Request.header (r : Request) (name value : String) : Request :=
  { r with headers := r.headers ++ [(name, value)] }

/-- Modelled from the spec: `reqwest` `RequestBuilder::basic_auth`,
recording the basic-auth credential pair on the request. -/
def Request.set_basic_auth (r : Request) (user : String) (password : Option String) : Request :=
  { r with basic_auth := some (user, password) }

/-- Embedding of `Client::build_client`.  The Rust function panics when
`Url::parse` fails; the panic is modelled as `none`. -/
def Client.build_client (url : String) (auth : Auth) : Option Client :=
  match Url.parse url with
  | some u =>
      some
        { url := u
        , auth := auth
        , org := none
        , bucket := none
        , precision := some WritePrecision.ns
        , http_client := build_http_client }
  | none => none

/-- Embedding of `Client::new`. -/
def Client.new (url token : String) : Option Client :=
  Client.build_client url { authorization_header := some ("Token " ++ token) }

/-- Embedding of `Client::with_org`. -/
def Client.with_org (c : Client) (org : String) : Client :=
  { c with org := some org }

/-- Embedding of `Client::with_bucket`. -/
def Client.with_bucket (c : Client) (bucket : String) : Client :=
  { c with bucket := some bucket }

/-- Embedding of `Client::with_precision`. -/
def Client.with_precision (c : Client) (precision : WritePrecision) : Client :=
  { c with precision := some precision }

/-- Embedding of `Client::new_v1`: builds the client with the composite
legacy credential header, then chains `with_org` and `with_bucket`. -/
def Client.new_v1 (url username password database retention_policy : String) :
    Option Client :=
  (Client.build_client url
      { authorization_header :=
          some ("Token " ++ username ++ ":" ++ password) }).map
    (fun c =>
      (c.with_org "-").with_bucket (database ++ "/" ++ retention_policy))

/-- Embedding of `Client::build_request`: starts a request on the owned
HTTP engine, then attaches the stored Authorization header when present,
and the placeholder basic-auth pair `("r", Some "d")` otherwise. -/
def Client.build_request (c : Client) (url : Url) (method : Method) : Request :=
  let request := c.http_client.request method url
  match c.auth.authorization_header with
  | some i => request.header "Authorization" i
  | none => request.set_basic_auth "r" (some "d")

/-- Embedding of `enum Status` from `health_check.rs`. -/
inductive Status where
  | pass
  | fail
deriving DecidableEq, Repr

/-- Embedding of `struct HealthCheck` from `health_check.rs`: required
`name` and `status`, optional `message`, `checks` (recursive), `version`
and `commit`. -/
inductive HealthCheck where
  | mk
      (name : String)
      (message : Option String)
      (checks : Option (List HealthCheck))
      (status : Status)
      (version : Option String)
      (commit : Option String)

/-- The JSON values needed by the HealthCheck wire contract. -/
inductive Json where
  | null
  | str : String → Json
  | arr : List Json → Json
  | obj : List (String × Json) → Json

/-- Wire token of a `Status`, from its serde rename attributes. -/
def encodeStatus : Status → Json
  | Status.pass => Json.str "pass"
  | Status.fail => Json.str "fail"

/-- Modelled from the spec: serde decoding of a `Status` from its two
string tokens; any other value is a decode failure. -/
def decodeStatus : Json → Option Status
  | Json.str "pass" => some Status.pass
  | Json.str "fail" => some Status.fail
  | _ => none

/-- One optional string field on the wire: omitted when absent. -/
def optStrField (key : String) : Option String → List (String × Json)
  | none => []
  | some s => [(key, Json.str s)]

mutual

/-- Modelled from the spec: serde serialization of `HealthCheck`; fields
appear under their rename keys in declaration order, and each field
marked `skip_serializing_if Option::is_none` is omitted when absent. -/
def encodeHC : HealthCheck → Json
  | HealthCheck.mk name message checks status version commit =>
      Json.obj
        (("name", Json.str name) ::
          (optStrField "message" message ++
            (match checks with
              | none => []
              | some cs => [("checks", Json.arr (encodeList cs))]) ++
            (("status", encodeStatus status) ::
              (optStrField "version" version ++ optStrField "commit" commit))))

/-- Serialization of a list of sub-checks, element by element. -/
def encodeList : List HealthCheck → List Json
  | [] => []
  | c :: cs => encodeHC c :: encodeList cs

end

/-- Decoding of one required string field: anything except a string
fails. -/
def decodeStr : Option Json → Option String
  | some (Json.str s) => some s
  | _ => none

/-- Decoding of one optional string field: an absent key yields the
absent field, a string yields the present field, anything else fails. -/
def decodeOptStr : Option Json → Option (Option String)
  | none => some none
  | some (Json.str s) => some (some s)
  | some _ => none

/-- The six wire keys of a `HealthCheck` object. -/
def healthCheckKeys : List String :=
  ["name", "message", "checks", "status", "version", "commit"]

/-- Modelled from the spec: serde decoding of a schema-conforming
`HealthCheck` payload.  A well-formed payload is an object whose keys
are distinct and drawn from the six declared wire keys, with `name` a
string, `status` one of the two tokens, the optional string fields
either absent or strings, and `checks` either absent or an array of
well-formed sub-payloads.  The `fuel` argument bounds the nesting depth
of the sub-check tree. -/
def decodeHC : Nat → Json → Option HealthCheck
  | 0, _ => none
  | fuel + 1, Json.obj fields =>
      if (fields.map Prod.fst).Nodup ∧
          ∀ k ∈ fields.map Prod.fst, k ∈ healthCheckKeys then
        match decodeStr (fields.lookup "name"),
            (fields.lookup "status").bind decodeStatus,
            decodeOptStr (fields.lookup "message"),
            decodeOptStr (fields.lookup "version"),
            decodeOptStr (fields.lookup "commit"),
            (match fields.lookup "checks" with
              | none => some none
              | some (Json.arr js) => (js.mapM (fun j => decodeHC fuel j)).map some
              | some _ => none) with
        | some name, some status, some message, some version, some commit, some checks =>
            some (HealthCheck.mk name message checks status version commit)
        | _, _, _, _, _, _ => none
      else none
  | _ + 1, _ => none

/-- The field list produced by serializing a `HealthCheck`, written out
as a plain definition mirroring the body of `encodeHC`. -/
def encodeFields (name : String) (message : Option String)
    (checks : Option (List HealthCheck)) (status : Status)
    (version commit : Option String) : List (String × Json) :=
  ("name", Json.str name) ::
    (optStrField "message" message ++
      (match checks with
        | none => []
        | some cs => [("checks", Json.arr (encodeList cs))]) ++
      (("status", encodeStatus status) ::
        (optStrField "version" version ++ optStrField "commit" commit)))

/-- Equivalence of JSON values as the wire contract reads them: equal
scalars, pointwise equivalent arrays, and objects carrying the same key
set with equivalent values under each key, irrespective of key order. -/
inductive Json.Equiv : Json → Json → Prop where
  | null : Json.Equiv Json.null Json.null
  | str (s : String) : Json.Equiv (Json.str s) (Json.str s)
  | arr {js ks : List Json}
      (hlen : js.length = ks.length)
      (helem : ∀ p ∈ js.zip ks, Json.Equiv p.1 p.2) :
      Json.Equiv (Json.arr js) (Json.arr ks)
  | obj {fs gs : List (String × Json)}
      (hkeys : ∀ k, (fs.lookup k).isSome ↔ (gs.lookup k).isSome)
      (hvals : ∀ k v w, fs.lookup k = some v → gs.lookup k = some w → Json.Equiv v w) :
      Json.Equiv (Json.obj fs) (Json.obj gs)

/-- Every client reachable through the public interface: one of the two
constructors followed by any sequence of the three fluent setters. -/
inductive Reachable : Client → Prop where
  | new (u t : String) (c : Client) :
      Client.new u t = some c → Reachable c
  | new_v1 (u usr pw db rp : String) (c : Client) :
      Client.new_v1 u usr pw db rp = some c → Reachable c
  | with_org (c : Client) (o : String) :
      Reachable c → Reachable (c.with_org o)
  | with_bucket (c : Client) (b : String) :
      Reachable c → Reachable (c.with_bucket b)
  | with_precision (c : Client) (p : WritePrecision) :
      Reachable c → Reachable (c.with_precision p)

/-- Helper: when an Authorization value is stored, `build_request` never
records a basic-auth pair. -/
theorem build_request_basic_auth_none_of_some (c : Client) (v : String)
    (h : c.auth.authorization_header = some v) (url : Url) (method : Method) :
    (c.build_request url method).basic_auth = none := by
  simp [Client.build_request, HttpClient.request, Request.header, h]

/-- Helper: lookup in a cons cell, phrased with a propositional if. -/
theorem lookup_cons_eq_if (k a : String) (b : Json) (l : List (String × Json)) :
    ((a, b) :: l).lookup k = if k = a then some b else l.lookup k := by
  rw [List.lookup_cons]
  by_cases h : k = a
  · simp [h]
  · have hb : (k == a) = false := by simp [h]
    rw [hb, if_neg h]

/-- Helper: lookup distributes over append via `Option.or`. -/
theorem lookup_append (k : String) (l1 l2 : List (String × Json)) :
    (l1 ++ l2).lookup k = (l1.lookup k).or (l2.lookup k) := by
  induction l1 with
  | nil => simp
  | cons a l ih =>
      obtain ⟨a1, a2⟩ := a
      by_cases h : k = a1
      · simp [lookup_cons_eq_if, h]
      · simp [lookup_cons_eq_if, h, ih]

/-- Helper: lookup in the singleton or empty list of one optional
field. -/
theorem lookup_optStrField (k key : String) (m : Option String) :
    (optStrField key m).lookup k = if k = key then m.map Json.str else none := by
  cases m <;> by_cases h : k = key <;> simp [optStrField, lookup_cons_eq_if, h]

/-- Helper: a successful lookup means the key occurs in the key list. -/
theorem lookup_mem_keys {l : List (String × Json)} {k : String} {v : Json}
    (h : l.lookup k = some v) : k ∈ l.map Prod.fst := by
  induction l with
  | nil => simp [List.lookup_nil] at h
  | cons a l ih =>
      obtain ⟨a1, a2⟩ := a
      rw [lookup_cons_eq_if] at h
      by_cases hk : k = a1
      · simp [hk]
      · rw [if_neg hk] at h
        simp [ih h]

/-- Helper: a required string field decodes only from a string value. -/
theorem decodeStr_eq {o : Option Json} {s : String} (h : decodeStr o = some s) :
    o = some (Json.str s) := by
  match o with
  | none => exact absurd h (by simp [decodeStr])
  | some Json.null => exact absurd h (by simp [decodeStr])
  | some (Json.str t) => simp [decodeStr] at h; rw [h]
  | some (Json.arr _) => exact absurd h (by simp [decodeStr])
  | some (Json.obj _) => exact absurd h (by simp [decodeStr])

/-- Helper: an optional string field decodes exactly from its own
re-encoded form. -/
theorem decodeOptStr_eq {o : Option Json} {m : Option String}
    (h : decodeOptStr o = some m) : o = m.map Json.str := by
  match o with
  | none => cases h; rfl
  | some Json.null => exact absurd h (by simp [decodeOptStr])
  | some (Json.str t) => simp [decodeOptStr] at h; rw [← h]; rfl
  | some (Json.arr _) => exact absurd h (by simp [decodeOptStr])
  | some (Json.obj _) => exact absurd h (by simp [decodeOptStr])

/-- Helper: a status decodes exactly from its own encoding. -/
theorem decodeStatus_eq {j : Json} {s : Status} (h : decodeStatus j = some s) :
    j = encodeStatus s := by
  unfold decodeStatus at h
  split at h
  · cases h; rfl
  · cases h; rfl
  · exact absurd h (by simp)

/-- Helper: `encodeHC` unfolds to the object over `encodeFields`. -/
theorem encodeHC_eq (n : String) (m : Option String)
    (c : Option (List HealthCheck)) (s : Status) (v co : Option String) :
    encodeHC (HealthCheck.mk n m c s v co) = Json.obj (encodeFields n m c s v co) := by
  cases c <;> simp [encodeHC, encodeFields]

/-- Helper: the serialized object always carries the name. -/
theorem encodeFields_lookup_name (n : String) (m : Option String)
    (c : Option (List HealthCheck)) (s : Status) (v co : Option String) :
    (encodeFields n m c s v co).lookup "name" = some (Json.str n) := by
  cases m <;> cases c <;> cases v <;> cases co <;> rfl

/-- Helper: the serialized object carries the message exactly when
present. -/
theorem encodeFields_lookup_message (n : String) (m : Option String)
    (c : Option (List HealthCheck)) (s : Status) (v co : Option String) :
    (encodeFields n m c s v co).lookup "message" = m.map Json.str := by
  cases m <;> cases c <;> cases v <;> cases co <;> rfl

/-- Helper: the serialized object carries the sub-checks exactly when
present. -/
theorem encodeFields_lookup_checks (n : String) (m : Option String)
    (c : Option (List HealthCheck)) (s : Status) (v co : Option String) :
    (encodeFields n m c s v co).lookup "checks" =
      c.map (fun cs => Json.arr (encodeList cs)) := by
  cases m <;> cases c <;> cases v <;> cases co <;> rfl

/-- Helper: the serialized object always carries the status token. -/
theorem encodeFields_lookup_status (n : String) (m : Option String)
    (c : Option (List HealthCheck)) (s : Status) (v co : Option String) :
    (encodeFields n m c s v co).lookup "status" = some (encodeStatus s) := by
  cases m <;> cases c <;> cases v <;> cases co <;> rfl

/-- Helper: the serialized object carries the version exactly when
present. -/
theorem encodeFields_lookup_version (n : String) (m : Option String)
    (c : Option (List HealthCheck)) (s : Status) (v co : Option String) :
    (encodeFields n m c s v co).lookup "version" = v.map Json.str := by
  cases m <;> cases c <;> cases v <;> cases co <;> rfl

/-- Helper: the serialized object carries the commit exactly when
present. -/
theorem encodeFields_lookup_commit (n : String) (m : Option String)
    (c : Option (List HealthCheck)) (s : Status) (v co : Option String) :
    (encodeFields n m c s v co).lookup "commit" = co.map Json.str := by
  cases m <;> cases c <;> cases v <;> cases co <;> rfl

/-- Helper: the serialized object holds no key outside the six declared
wire keys, so absent optional fields are omitted, never emitted. -/
theorem encodeFields_lookup_other (n : String) (m : Option String)
    (c : Option (List HealthCheck)) (s : Status) (v co : Option String)
    (k : String) (hk : k ∉ healthCheckKeys) :
    (encodeFields n m c s v co).lookup k = none := by
  simp only [healthCheckKeys, List.mem_cons, List.not_mem_nil, or_false, not_or] at hk
  obtain ⟨h1, h2, h3, h4, h5, h6⟩ := hk
  cases m <;> cases c <;> cases v <;> cases co <;>
    simp [encodeFields, optStrField, lookup_cons_eq_if, h1, h2, h3, h4, h5, h6]

/-- Helper: a payload whose keys all lie in the declared key set has no
binding outside it. -/
theorem fields_lookup_other {fields : List (String × Json)}
    (hsub : ∀ k ∈ fields.map Prod.fst, k ∈ healthCheckKeys) {k : String}
    (hk : k ∉ healthCheckKeys) : fields.lookup k = none := by
  cases h : fields.lookup k with
  | none => rfl
  | some v => exact absurd (hsub k (lookup_mem_keys h)) hk

/-- Helper: a successfully decoded sub-check array re-encodes to a list
pointwise equivalent to the original array, given the round-trip
property one fuel level down. -/
theorem mapM_decode_zip {fuel : Nat}
    (ih : ∀ (j : Json) (hc : HealthCheck),
      decodeHC fuel j = some hc → Json.Equiv (encodeHC hc) j) :
    ∀ {js : List Json} {hs : List HealthCheck},
      js.mapM (fun j => decodeHC fuel j) = some hs →
      (encodeList hs).length = js.length ∧
        ∀ p ∈ (encodeList hs).zip js, Json.Equiv p.1 p.2 := by
  intro js
  induction js with
  | nil =>
      intro hs h
      rw [List.mapM_nil] at h
      cases h
      exact ⟨rfl, by simp [encodeList]⟩
  | cons j js ihl =>
      intro hs h
      rw [List.mapM_cons] at h
      simp only [Option.pure_def, Option.bind_eq_bind] at h
      obtain ⟨b, hb, h⟩ := Option.bind_eq_some.mp h
      obtain ⟨bs, hbs, h⟩ := Option.bind_eq_some.mp h
      cases h
      obtain ⟨hlen, hmem⟩ := ihl hbs
      refine ⟨by simp [encodeList, hlen], ?_⟩
      intro p hp
      simp only [encodeList, List.zip_cons_cons, List.mem_cons] at hp
      cases hp with
      | inl h => subst h; exact ih j b hb
      | inr h => exact hmem p h

/-- Helper: the object equivalence assembled from the per-key lookup
facts of a decoded payload. -/
theorem equiv_obj_of_lookups {fields : List (String × Json)} {name : String}
    {message version commit : Option String} {status : Status}
    {checks : Option (List HealthCheck)}
    (hsub : ∀ k ∈ fields.map Prod.fst, k ∈ healthCheckKeys)
    (hname : fields.lookup "name" = some (Json.str name))
    (hstatus : fields.lookup "status" = some (encodeStatus status))
    (hmsg : fields.lookup "message" = message.map Json.str)
    (hver : fields.lookup "version" = version.map Json.str)
    (hcom : fields.lookup "commit" = commit.map Json.str)
    (hchk1 : (checks.map (fun cs => Json.arr (encodeList cs))).isSome ↔
      (fields.lookup "checks").isSome)
    (hchk2 : ∀ v w, checks.map (fun cs => Json.arr (encodeList cs)) = some v →
      fields.lookup "checks" = some w → Json.Equiv v w) :
    Json.Equiv (Json.obj (encodeFields name message checks status version commit))
      (Json.obj fields) := by
  apply Json.Equiv.obj
  · intro k
    by_cases h1 : k = "name"
    · subst h1; rw [encodeFields_lookup_name, hname]
    · by_cases h2 : k = "message"
      · subst h2; rw [encodeFields_lookup_message, hmsg]
      · by_cases h3 : k = "checks"
        · subst h3; rw [encodeFields_lookup_checks]; exact hchk1
        · by_cases h4 : k = "status"
          · subst h4; rw [encodeFields_lookup_status, hstatus]
          · by_cases h5 : k = "version"
            · subst h5; rw [encodeFields_lookup_version, hver]
            · by_cases h6 : k = "commit"
              · subst h6; rw [encodeFields_lookup_commit, hcom]
              · have hk : k ∉ healthCheckKeys := by
                  simp [healthCheckKeys, h1, h2, h3, h4, h5, h6]
                rw [encodeFields_lookup_other _ _ _ _ _ _ k hk,
                  fields_lookup_other hsub hk]
  · intro k v w hv hw
    by_cases h1 : k = "name"
    · subst h1
      rw [encodeFields_lookup_name] at hv
      rw [hname] at hw
      cases hv; cases hw
      exact Json.Equiv.str name
    · by_cases h2 : k = "message"
      · subst h2
        rw [encodeFields_lookup_message] at hv
        rw [hmsg] at hw
        cases message with
        | none => exact absurd hv (by simp)
        | some s => cases hv; cases hw; exact Json.Equiv.str s
      · by_cases h3 : k = "checks"
        · subst h3
          rw [encodeFields_lookup_checks] at hv
          exact hchk2 v w hv hw
        · by_cases h4 : k = "status"
          · subst h4
            rw [encodeFields_lookup_status] at hv
            rw [hstatus] at hw
            cases hv; cases hw
            cases status <;> exact Json.Equiv.str _
          · by_cases h5 : k = "version"
            · subst h5
              rw [encodeFields_lookup_version] at hv
              rw [hver] at hw
              cases version with
              | none => exact absurd hv (by simp)
              | some s => cases hv; cases hw; exact Json.Equiv.str s
            · by_cases h6 : k = "commit"
              · subst h6
                rw [encodeFields_lookup_commit] at hv
                rw [hcom] at hw
                cases commit with
                | none => exact absurd hv (by simp)
                | some s => cases hv; cases hw; exact Json.Equiv.str s
              · have hk : k ∉ healthCheckKeys := by
                  simp [healthCheckKeys, h1, h2, h3, h4, h5, h6]
                rw [encodeFields_lookup_other _ _ _ _ _ _ k hk] at hv
                exact absurd hv (by simp)

/-- C1: constructing a client with `new(u, t)` on a valid absolute URL
`u` records the parsed URL, leaves default_org and default_bucket unset,
defaults the precision to nanoseconds, and stores the authorization
header value `"Token " + t`. -/
theorem new_yields_default_config (u t : String) (url : Url)
    (hparse : Url.parse u = some url) :
    Client.new u t =
      some
        { url := url
        , auth := { authorization_header := some ("Token " ++ t) }
        , org := none
        , bucket := none
        , precision := some WritePrecision.ns
        , http_client := build_http_client } := by
  simp [Client.new, Client.build_client, hparse]

/-- Witness for C1 at the URL and token of the repository tests. -/
theorem new_yields_default_config_witness :
    Url.parse "http://localhost:9999" = some ⟨"http", "localhost:9999"⟩ ∧
    Client.new "http://localhost:9999" "my-token" =
      some
        { url := ⟨"http", "localhost:9999"⟩
        , auth := { authorization_header := some "Token my-token" }
        , org := none
        , bucket := none
        , precision := some WritePrecision.ns
        , http_client := build_http_client } :=
  ⟨rfl, new_yields_default_config "http://localhost:9999" "my-token" ⟨"http", "localhost:9999"⟩ rfl⟩

/-- C2: against a bearer-token configuration built by `new`, every
`build_request` call carries exactly the User-Agent header with the
fixed product string and one Authorization header with the stored value
`"Token " + t`, no basic-auth pair, and no body. -/
theorem build_request_bearer_headers (u t : String) (c : Client)
    (hnew : Client.new u t = some c) (url : Url) (method : Method) :
    (c.build_request url method).headers =
        [("User-Agent", APP_USER_AGENT), ("Authorization", "Token " ++ t)] ∧
    ((c.build_request url method).headers.filter
        (fun p => p.1 == "Authorization")).length = 1 ∧
    (c.build_request url method).basic_auth = none ∧
    (c.build_request url method).body = none := by
  unfold Client.new Client.build_client at hnew
  cases hp : Url.parse u with
  | none => rw [hp] at hnew; exact absurd hnew (by simp)
  | some v =>
      rw [hp] at hnew
      simp only [Option.some.injEq] at hnew
      subst hnew
      refine ⟨rfl, ?_, ?_, rfl⟩
      · simp [Client.build_request, HttpClient.request, Request.header, build_http_client]
      · exact build_request_basic_auth_none_of_some _ ("Token " ++ t) rfl url method

/-- Witness for C2 at a concrete construction, URL and method. -/
theorem build_request_bearer_headers_witness :
    Client.new "http://localhost:5000" "my-token" =
      some
        { url := ⟨"http", "localhost:5000"⟩
        , auth := { authorization_header := some "Token my-token" }
        , org := none
        , bucket := none
        , precision := some WritePrecision.ns
        , http_client := build_http_client } ∧
    (Client.build_request
        { url := ⟨"http", "localhost:5000"⟩
        , auth := { authorization_header := some "Token my-token" }
        , org := none
        , bucket := none
        , precision := some WritePrecision.ns
        , http_client := build_http_client }
        ⟨"http", "localhost:5000/api/v2/mock"⟩ Method.get).headers =
      [("User-Agent", APP_USER_AGENT), ("Authorization", "Token my-token")] :=
  ⟨rfl,
    (build_request_bearer_headers "http://localhost:5000" "my-token" _ rfl
      ⟨"http", "localhost:5000/api/v2/mock"⟩ Method.get).1⟩

/-- C3: on an input that does not parse as an absolute URL, client
construction produces no client value; the panic of the Rust code is
modelled as `none`. -/
theorem new_fails_on_invalid_url (u : String) (hparse : Url.parse u = none)
    (t : String) : Client.new u t = none := by
  simp [Client.new, Client.build_client, hparse]

/-- Witness for C3 at the input `"xyz"` of the repository test. -/
theorem new_fails_on_invalid_url_witness :
    Url.parse "xyz" = none ∧ Client.new "xyz" "my-token" = none :=
  ⟨by decide, new_fails_on_invalid_url "xyz" (by decide) "my-token"⟩

/-- C4: `new_v1` on a valid absolute URL stores the composite legacy
authorization value `"Token " + username + ":" + password`, the org
sentinel `"-"`, the bucket `database + "/" + retention_policy`, and the
nanosecond default precision. -/
theorem new_v1_yields_legacy_config (u usr pw db rp : String) (url : Url)
    (hparse : Url.parse u = some url) :
    Client.new_v1 u usr pw db rp =
      some
        { url := url
        , auth := { authorization_header := some ("Token " ++ usr ++ ":" ++ pw) }
        , org := some "-"
        , bucket := some (db ++ "/" ++ rp)
        , precision := some WritePrecision.ns
        , http_client := build_http_client } := by
  simp [Client.new_v1, Client.build_client, hparse, Client.with_org, Client.with_bucket]

/-- Witness for C4 at the argument tuple of the claim. -/
theorem new_v1_yields_legacy_config_witness :
    Url.parse "http://localhost:8086" = some ⟨"http", "localhost:8086"⟩ ∧
    Client.new_v1 "http://localhost:8086" "my-user" "my-password" "telegraf" "autogen" =
      some
        { url := ⟨"http", "localhost:8086"⟩
        , auth := { authorization_header := some "Token my-user:my-password" }
        , org := some "-"
        , bucket := some "telegraf/autogen"
        , precision := some WritePrecision.ns
        , http_client := build_http_client } :=
  ⟨rfl,
    new_v1_yields_legacy_config "http://localhost:8086" "my-user" "my-password"
      "telegraf" "autogen" ⟨"http", "localhost:8086"⟩ rfl⟩

/-- C5: the three fluent setters commute: every one of the six chaining
orders yields the same configuration, whose org, bucket and precision
hold the three given values. -/
theorem setters_commute (c : Client) (o b : String) (p : WritePrecision) :
    ((c.with_org o).with_bucket b).with_precision p =
      { c with org := some o, bucket := some b, precision := some p } ∧
    ((c.with_org o).with_precision p).with_bucket b =
      { c with org := some o, bucket := some b, precision := some p } ∧
    ((c.with_bucket b).with_org o).with_precision p =
      { c with org := some o, bucket := some b, precision := some p } ∧
    ((c.with_bucket b).with_precision p).with_org o =
      { c with org := some o, bucket := some b, precision := some p } ∧
    ((c.with_precision p).with_org o).with_bucket b =
      { c with org := some o, bucket := some b, precision := some p } ∧
    ((c.with_precision p).with_bucket b).with_org o =
      { c with org := some o, bucket := some b, precision := some p } ∧
    ({ c with org := some o, bucket := some b, precision := some p } : Client).org = some o ∧
    ({ c with org := some o, bucket := some b, precision := some p } : Client).bucket = some b ∧
    ({ c with org := some o, bucket := some b, precision := some p } : Client).precision = some p :=
  ⟨rfl, rfl, rfl, rfl, rfl, rfl, rfl, rfl, rfl⟩

/-- C8: when no authorization header is stored, `build_request` attaches
the placeholder basic-auth pair `("r", Some "d")` instead of leaving the
request without credentials, and adds no Authorization header. -/
theorem build_request_absent_auth_placeholder (c : Client)
    (h : c.auth.authorization_header = none) (url : Url) (method : Method) :
    c.build_request url method =
      { method := method
      , url := url
      , headers := [("User-Agent", c.http_client.user_agent)]
      , basic_auth := some ("r", some "d")
      , body := none } := by
  simp [Client.build_request, HttpClient.request, Request.set_basic_auth, h]

/-- Witness for C8 at a concrete auth-less configuration. -/
theorem build_request_absent_auth_placeholder_witness :
    ({ url := ⟨"http", "localhost:9999"⟩
     , auth := { authorization_header := none }
     , org := none
     , bucket := none
     , precision := some WritePrecision.ns
     , http_client := build_http_client } : Client).auth.authorization_header = none ∧
    Client.build_request
        { url := ⟨"http", "localhost:9999"⟩
        , auth := { authorization_header := none }
        , org := none
        , bucket := none
        , precision := some WritePrecision.ns
        , http_client := build_http_client }
        ⟨"http", "localhost:9999/api"⟩ Method.get =
      { method := Method.get
      , url := ⟨"http", "localhost:9999/api"⟩
      , headers := [("User-Agent", APP_USER_AGENT)]
      , basic_auth := some ("r", some "d")
      , body := none } :=
  ⟨rfl,
    build_request_absent_auth_placeholder
      { url := ⟨"http", "localhost:9999"⟩
      , auth := { authorization_header := none }
      , org := none
      , bucket := none
      , precision := some WritePrecision.ns
      , http_client := build_http_client }
      rfl ⟨"http", "localhost:9999/api"⟩ Method.get⟩

/-- C9: every client reachable through the public constructors and the
fluent setters stores an authorization header, so the placeholder
basic-auth branch of `build_request` is never taken for it. -/
theorem reachable_auth_present (c : Client) (h : Reachable c) :
    c.auth.authorization_header.isSome = true ∧
    ∀ url method, (c.build_request url method).basic_auth = none := by
  induction h with
  | new u t c hnew =>
      unfold Client.new Client.build_client at hnew
      cases hp : Url.parse u with
      | none => rw [hp] at hnew; exact absurd hnew (by simp)
      | some v =>
          rw [hp] at hnew
          simp only [Option.some.injEq] at hnew
          subst hnew
          exact ⟨rfl, fun url method =>
            build_request_basic_auth_none_of_some _ ("Token " ++ t) rfl url method⟩
  | new_v1 u usr pw db rp c hnew =>
      unfold Client.new_v1 Client.build_client at hnew
      cases hp : Url.parse u with
      | none => rw [hp] at hnew; exact absurd hnew (by simp)
      | some v =>
          rw [hp] at hnew
          simp only [Option.map_some', Option.some.injEq] at hnew
          subst hnew
          exact ⟨rfl, fun url method =>
            build_request_basic_auth_none_of_some _
              ("Token " ++ usr ++ ":" ++ pw) rfl url method⟩
  | with_org c o _ ih =>
      obtain ⟨h1, _⟩ := ih
      obtain ⟨v, hv⟩ := Option.isSome_iff_exists.mp h1
      exact ⟨by simp [Client.with_org, hv], fun url method =>
        build_request_basic_auth_none_of_some _ v hv url method⟩
  | with_bucket c b _ ih =>
      obtain ⟨h1, _⟩ := ih
      obtain ⟨v, hv⟩ := Option.isSome_iff_exists.mp h1
      exact ⟨by simp [Client.with_bucket, hv], fun url method =>
        build_request_basic_auth_none_of_some _ v hv url method⟩
  | with_precision c p _ ih =>
      obtain ⟨h1, _⟩ := ih
      obtain ⟨v, hv⟩ := Option.isSome_iff_exists.mp h1
      exact ⟨by simp [Client.with_precision, hv], fun url method =>
        build_request_basic_auth_none_of_some _ v hv url method⟩

/-- Witness for C9 at a concrete reachable client. -/
theorem reachable_auth_present_witness :
    (Client.with_bucket
        { url := ⟨"http", "localhost:9999"⟩
        , auth := { authorization_header := some "Token my-token" }
        , org := none
        , bucket := none
        , precision := some WritePrecision.ns
        , http_client := build_http_client } "my-bucket").auth.authorization_header.isSome
      = true ∧
    ((Client.with_bucket
        { url := ⟨"http", "localhost:9999"⟩
        , auth := { authorization_header := some "Token my-token" }
        , org := none
        , bucket := none
        , precision := some WritePrecision.ns
        , http_client := build_http_client } "my-bucket").build_request
        ⟨"http", "localhost:9999/api"⟩ Method.get).basic_auth = none := by
  have hr : Reachable (Client.with_bucket
      { url := ⟨"http", "localhost:9999"⟩
      , auth := { authorization_header := some "Token my-token" }
      , org := none
      , bucket := none
      , precision := some WritePrecision.ns
      , http_client := build_http_client } "my-bucket") :=
    Reachable.with_bucket _ "my-bucket"
      (Reachable.new "http://localhost:9999" "my-token" _ (by rfl))
  exact ⟨(reachable_auth_present _ hr).1,
    (reachable_auth_present _ hr).2 ⟨"http", "localhost:9999/api"⟩ Method.get⟩

/-- C10: each fluent setter is frame-preserving: it changes only its own
field and leaves the URL, the authorization data, the other default
fields, and the transport handle untouched. -/
theorem setters_frame (c : Client) (o b : String) (p : WritePrecision) :
    ((c.with_org o).url = c.url ∧ (c.with_org o).auth = c.auth ∧
      (c.with_org o).bucket = c.bucket ∧ (c.with_org o).precision = c.precision ∧
      (c.with_org o).http_client = c.http_client ∧ (c.with_org o).org = some o) ∧
    ((c.with_bucket b).url = c.url ∧ (c.with_bucket b).auth = c.auth ∧
      (c.with_bucket b).org = c.org ∧ (c.with_bucket b).precision = c.precision ∧
      (c.with_bucket b).http_client = c.http_client ∧ (c.with_bucket b).bucket = some b) ∧
    ((c.with_precision p).url = c.url ∧ (c.with_precision p).auth = c.auth ∧
      (c.with_precision p).org = c.org ∧ (c.with_precision p).bucket = c.bucket ∧
      (c.with_precision p).http_client = c.http_client ∧
      (c.with_precision p).precision = some p) :=
  ⟨⟨rfl, rfl, rfl, rfl, rfl, rfl⟩, ⟨rfl, rfl, rfl, rfl, rfl, rfl⟩,
    ⟨rfl, rfl, rfl, rfl, rfl, rfl⟩⟩

/-- C6: decoding a well-formed HealthCheck payload and re-encoding the
result reproduces an equivalent payload: the same key set and the same
values under every key, with the key set equality entailing that fields
absent from the input stay omitted from the output instead of appearing
as explicit nulls. -/
theorem healthCheck_roundtrip : ∀ (fuel : Nat) (j : Json) (hc : HealthCheck),
    decodeHC fuel j = some hc → Json.Equiv (encodeHC hc) j := by
  intro fuel
  induction fuel with
  | zero => intro j hc hdec; simp [decodeHC] at hdec
  | succ fuel ih =>
      intro j hc hdec
      cases j with
      | null => simp [decodeHC] at hdec
      | str s => simp [decodeHC] at hdec
      | arr js => simp [decodeHC] at hdec
      | obj fields =>
          rw [decodeHC] at hdec
          split at hdec
          case isFalse => exact absurd hdec (by simp)
          case isTrue hcond =>
            obtain ⟨hnodup, hsub⟩ := hcond
            split at hdec
            case h_2 => exact absurd hdec (by simp)
            case h_1 name status message version commit checks hname hstatus hmsg hver hcom hchk =>
              cases hdec
              obtain ⟨st, hst1, hst2⟩ := Option.bind_eq_some.mp hstatus
              rw [decodeStatus_eq hst2] at hst1
              rw [encodeHC_eq]
              split at hchk
              case h_1 heq =>
                cases hchk
                refine equiv_obj_of_lookups hsub (decodeStr_eq hname) hst1
                  (decodeOptStr_eq hmsg) (decodeOptStr_eq hver) (decodeOptStr_eq hcom)
                  (by rw [heq]; simp) ?_
                intro v w hv _
                exact absurd hv (by simp)
              case h_2 js heq =>
                obtain ⟨hs, hmapm, hchk2⟩ := Option.map_eq_some'.mp hchk
                cases hchk2
                refine equiv_obj_of_lookups hsub (decodeStr_eq hname) hst1
                  (decodeOptStr_eq hmsg) (decodeOptStr_eq hver) (decodeOptStr_eq hcom)
                  (by rw [heq]; simp) ?_
                intro v w hv hw
                rw [heq] at hw
                cases hv; cases hw
                exact Json.Equiv.arr (mapM_decode_zip ih hmapm).1 (mapM_decode_zip ih hmapm).2
              case h_3 => exact absurd hchk (by simp)

/-- Witness for C6 at a payload with shuffled keys, a present version, a
nested sub-check carrying a message, and the remaining optional fields
absent. -/
theorem healthCheck_roundtrip_witness :
    decodeHC 2
        (Json.obj
          [("status", Json.str "pass"),
            ("version", Json.str "2.0.1"),
            ("name", Json.str "influxdb"),
            ("checks",
              Json.arr
                [Json.obj
                    [("name", Json.str "sub"),
                      ("status", Json.str "fail"),
                      ("message", Json.str "m")]])]) =
      some
        (HealthCheck.mk "influxdb" none
          (some [HealthCheck.mk "sub" (some "m") none Status.fail none none])
          Status.pass (some "2.0.1") none) ∧
    Json.Equiv
      (encodeHC
        (HealthCheck.mk "influxdb" none
          (some [HealthCheck.mk "sub" (some "m") none Status.fail none none])
          Status.pass (some "2.0.1") none))
      (Json.obj
        [("status", Json.str "pass"),
          ("version", Json.str "2.0.1"),
          ("name", Json.str "influxdb"),
          ("checks",
            Json.arr
              [Json.obj
                  [("name", Json.str "sub"),
                    ("status", Json.str "fail"),
                    ("message", Json.str "m")]])]) :=
  ⟨rfl, healthCheck_roundtrip 2 _ _ rfl⟩

/-- C7: a payload holding only a name and the status token `"fail"`
decodes to a HealthCheck whose name and status are populated and whose
four optional fields are all absent, and re-encoding that value omits
all four optional keys. -/
theorem healthCheck_fail_minimal (n : String) :
    decodeHC 1 (Json.obj [("name", Json.str n), ("status", Json.str "fail")]) =
      some (HealthCheck.mk n none none Status.fail none none) ∧
    encodeHC (HealthCheck.mk n none none Status.fail none none) =
      Json.obj [("name", Json.str n), ("status", Json.str "fail")] :=
  ⟨rfl, rfl⟩

end Influx
